import Mathlib

/-!
Shallow embedding of `src/main.rs` of the `aim_ratio_collections` tool.

The program classifies osu! beatmaps by their aim/tapping performance ratio
(`group_maps_by`), then synchronizes the resulting buckets into the
collection database (`remove_previous_collections`, `add_new_collections`).

Modelling conventions:
 * `f64` values (star ratings, performance values, the ratio precision) are
   modelled as `ℚ`.  The `as i32` cast is modelled by `ratTrunc`
   (truncation toward zero); Rust's saturating behaviour at the `i32`
   bounds and the `NaN ↦ 0` case of the cast are discussed at the theorems
   that depend on them.
 * The external `rosu_pp` library (parsing a map file and computing its
   performance attributes at 99% accuracy) is modelled as an oracle
   `PerfSource : String → Option PerformanceAttributes`; `none` models a
   parse error (`rosu_pp::Beatmap::from_path` returning `Err`).
 * A Rust panic (the `.unwrap()` calls on `folder_name` / `file_name` in
   `group_maps_by`, lines 96–97) aborts the whole process; the per-record
   fold is therefore embedded as an `Option`-valued fold where `none`
   models the panic.
 * `HashMap<i32, Vec<Option<String>>>` is modelled as an association list
   with unique keys in first-insertion order; the `for` iteration of
   `add_new_collections` follows that list order (the HashMap's iteration
   order is arbitrary, and the spec declares it not contractually
   meaningful).
-/

namespace Osu

/-- Game mode of a beatmap record (osu_db `Mode`); only `Standard`
participates in classification. -/
inductive Mode where
  | Standard
  | Taiko
  | CatchTheBeat
  | Mania
deriving DecidableEq

/-- The fields of an osu_db `Beatmap` record that `main.rs` consults.
`std_ratings` maps a mod combination (the `ModSet` bit set, modelled as a
`Nat`) to a star rating; the no-mod entry is the one with mod bits 0. -/
structure Beatmap where
  hash : Option String
  folder_name : Option String
  file_name : Option String
  mode : Mode
  std_ratings : List (Nat × ℚ)
deriving DecidableEq

/-- The command line arguments of `main.rs` (struct `Args`).  The field
`collection_pfx` embeds the source's `collection_prefix`. -/
structure Args where
  osu_path : String
  collection_pfx : String
  ratio_precision : ℚ
  min_star_rating : ℚ
deriving DecidableEq

/-- Performance attributes returned by `rosu_pp`'s calculator: the `Osu`
variant carries the aim and speed performance values (`pp.pp_aim`,
`pp.pp_speed`); `NonOsu` stands for the Taiko/Catch/Mania variants, which
`group_maps_by` ignores. -/
inductive PerformanceAttributes where
  | Osu (pp_aim : ℚ) (pp_speed : ℚ)
  | NonOsu
deriving DecidableEq

/-- Oracle for `rosu_pp::Beatmap::from_path` followed by
`.pp().accuracy(99.0).calculate()`: maps a file path to `none` (parse
error) or the computed attributes. -/
def PerfSource : Type := String → Option PerformanceAttributes

/-- An osu_db `Collection`: optional display name and ordered hashes
(`beatmap_hashes`), each hash itself optional. -/
structure Collection where
  name : Option String
  beatmap_hashes : List (Option String)
deriving DecidableEq

/-- The bucket accumulator `HashMap<i32, Vec<Option<String>>>`, as an
association list with unique keys, in first-insertion order. -/
abbrev Buckets : Type := List (ℤ × List (Option String))

/-- Rust's `str::starts_with`, the test used by
`remove_previous_collections` (line 161). -/
def starts_with (pfx s : String) : Bool :=
  pfx.data.isPrefixOf s.data

/-- Rust's `as i32` cast of a finite `f64`: truncation toward zero
(saturation at the `i32` bounds is not modelled; all keys reachable from a
ratio in [0,100] are tiny). -/
def ratTrunc (q : ℚ) : ℤ :=
  if 0 ≤ q then ⌊q⌋ else ⌈q⌉

/-- The bucket-key expression of line 113 before the `as i32` cast, with
`r` standing for `aim_aspect * 100`: `(r / precision).floor() * precision`. -/
def bucket_key_real (r p : ℚ) : ℚ :=
  (⌊r / p⌋ : ℚ) * p

/-- The bucket key as the code computes it (lines 113–114): the floored
multiple, then the `as i32` cast. -/
def bucket_key (r p : ℚ) : ℤ :=
  ratTrunc (bucket_key_real r p)

/-- The `rounded_aim_aspect` of lines 113–114: bucket key of the aspect ratio
scaled to a percentage. -/
def rounded_aim_aspect (aim_aspect p : ℚ) : ℤ :=
  bucket_key (aim_aspect * 100) p

/-- The map path of lines 94–97: `{osu_path}/Songs/{folder_name}/{file_name}`. -/
def mapPath (osu_path folder fname : String) : String :=
  osu_path ++ "/Songs/" ++ folder ++ "/" ++ fname

/-- The `find_map` of lines 73–75: the first star rating whose mod bits
are 0. -/
def noModStars (ratings : List (Nat × ℚ)) : Option ℚ :=
  ratings.findSome? (fun ms => if ms.1 = 0 then some ms.2 else none)

/-- The filter predicate of lines 70–78: Standard mode, and the no-mod
star rating (defaulting to `min_star_rating` when unset, the
`unwrap_or`) at least `min_star_rating`. -/
def keepsMap (args : Args) (m : Beatmap) : Bool :=
  decide (m.mode = Mode.Standard) &&
    decide (args.min_star_rating ≤ (noModStars m.std_ratings).getD args.min_star_rating)

/-- The `filtered_maps` list of lines 67–79. -/
def filteredMaps (args : Args) (listing : List Beatmap) : List Beatmap :=
  listing.filter (keepsMap args)

/-- The insertion `hash_map.entry(key).or_default()` followed by `Vec::push(…, hash)`
(lines 116–121): append the hash to the bucket of `key`, creating the
bucket if absent. -/
def insertBucket : Buckets → ℤ → Option String → Buckets
  | [], key, h => [(key, [h])]
  | (k, hs) :: rest, key, h =>
      if k = key then (k, hs ++ [h]) :: rest
      else (k, hs) :: insertBucket rest key h

/-- The body of the fold in lines 93–135 for one record.  `none` models
the panic of the `.unwrap()` calls on `folder_name`/`file_name`
(lines 96–97); a parse error or non-Osu attributes leave the accumulator
unchanged. -/
def processRecord (args : Args) (perf : PerfSource) (hm : Buckets) (m : Beatmap) :
    Option Buckets :=
  match m.folder_name, m.file_name with
  | some folder, some fname =>
      match perf (mapPath args.osu_path folder fname) with
      | none => some hm
      | some (PerformanceAttributes.Osu pp_aim pp_speed) =>
          some (insertBucket hm
            (rounded_aim_aspect (pp_aim / (pp_aim + pp_speed)) args.ratio_precision)
            m.hash)
      | some PerformanceAttributes.NonOsu => some hm
  | _, _ => none

/-- The fold of lines 91–136 over the filtered records, starting from the
empty accumulator; `none` propagates a panic. -/
def runFold (args : Args) (perf : PerfSource) : Buckets → List Beatmap → Option Buckets
  | hm, [] => some hm
  | hm, m :: rest =>
      match processRecord args perf hm m with
      | none => none
      | some hm' => runFold args perf hm' rest

/-- The classifier `group_maps_by` (lines 66–137): filter the listing, then fold the
per-record classification.  The result is `none` exactly when a record's
`folder_name` or `file_name` unwrap panics. -/
def group_maps_by (args : Args) (perf : PerfSource) (listing : List Beatmap) :
    Option Buckets :=
  runFold args perf [] (filteredMaps args listing)

/-- The collection name of line 146:
`"{prefix}{aim_ratio}% Aim / {100 - aim_ratio}% Tapping"`. -/
def collection_name (pfx : String) (key : ℤ) : String :=
  pfx ++ toString key ++ "% Aim / " ++ toString (100 - key) ++ "% Tapping"

/-- The synchronizer step `add_new_collections` (lines 139–155): for each bucket, push one new
collection holding the bucket's hashes onto the end of the list. -/
def add_new_collections (pfx : String) (groups : Buckets)
    (collections : List Collection) : List Collection :=
  groups.foldl
    (fun cs kv =>
      cs ++ [{ name := some (collection_name pfx kv.1), beatmap_hashes := kv.2 }])
    collections

/-- The synchronizer step `remove_previous_collections` (lines 157–171): retain the collections
whose name is absent or does not start with the prefix; also return the
reported removed count, `original length - retained length`. -/
def remove_previous_collections (pfx : String) (collections : List Collection) :
    List Collection × Nat :=
  let retained := collections.filter (fun c =>
    match c.name with
    | some name => !(starts_with pfx name)
    | none => true)
  (retained, collections.length - retained.length)

/-- One synchronization pass as `main` runs it (lines 58–59):
`remove_previous_collections` then `add_new_collections`. -/
def syncPass (pfx : String) (groups : Buckets) (collections : List Collection) :
    List Collection :=
  add_new_collections pfx groups (remove_previous_collections pfx collections).1

/-- A collection counts as "prefixed" when it has a name and that name
starts with the prefix. -/
def prefixedBy (pfx : String) (c : Collection) : Bool :=
  match c.name with
  | some n => starts_with pfx n
  | none => false

/-- The collections `add_new_collections` builds from the buckets. -/
def newCols (pfx : String) (groups : Buckets) : List Collection :=
  groups.map (fun kv => { name := some (collection_name pfx kv.1), beatmap_hashes := kv.2 })

/-- A record contributes a hash entry when its path resolves (both names
present) and the oracle parses the file to Osu-kind attributes. -/
def contributes (args : Args) (perf : PerfSource) (m : Beatmap) : Bool :=
  match m.folder_name, m.file_name with
  | some folder, some fname =>
      match perf (mapPath args.osu_path folder fname) with
      | some (PerformanceAttributes.Osu _ _) => true
      | _ => false
  | _, _ => false

/-- All hash entries stored across the buckets, as a multiset (bucket
order is irrelevant). -/
def bucketHashes (b : Buckets) : Multiset (Option String) :=
  ((b.map Prod.snd).flatten : List (Option String))

/-- Total number of hash entries across all buckets. -/
def hashCount (b : Buckets) : Nat :=
  (b.map (fun kv => kv.2.length)).sum

/-! ### Helper lemmas about the synchronizer -/

/-- The retain condition of lines 159–165, characterized: keep exactly the
collections whose name is absent or does not start with the prefix. -/
lemma keepCond_iff (pfx : String) (c : Collection) :
    ((match c.name with
      | some name => !(starts_with pfx name)
      | none => true) = true) ↔
      (c.name = none ∨ ∃ n, c.name = some n ∧ starts_with pfx n = false) := by
  cases hn : c.name with
  | none => simp
  | some n => simp [Bool.not_eq_true']

/-- Every string starts with the empty string. -/
lemma starts_with_empty (s : String) : starts_with "" s = true := by
  have hd : "".data = ([] : List Char) := rfl
  simp [starts_with, hd]

/-- A string starts with any of its prefixes by construction. -/
lemma starts_with_append (pfx s : String) : starts_with pfx (pfx ++ s) = true := by
  simp [starts_with, String.data_append, List.isPrefixOf_iff_prefix]

/-- The synthesized collection names all start with the prefix. -/
lemma starts_with_collection_name (pfx : String) (key : ℤ) :
    starts_with pfx (collection_name pfx key) = true := by
  have h : collection_name pfx key =
      pfx ++ (toString key ++ "% Aim / " ++ toString (100 - key) ++ "% Tapping") := by
    simp [collection_name, String.append_assoc]
  rw [h]
  exact starts_with_append _ _

/-- Unfolding: `add_new_collections` is an append of the synthesized collections. -/
lemma addNew_eq_append (pfx : String) (groups : Buckets) (cs : List Collection) :
    add_new_collections pfx groups cs = cs ++ newCols pfx groups := by
  induction groups generalizing cs with
  | nil => simp [add_new_collections, newCols]
  | cons kv t ih =>
      have step : add_new_collections pfx (kv :: t) cs =
          add_new_collections pfx t
            (cs ++ [{ name := some (collection_name pfx kv.1), beatmap_hashes := kv.2 }]) := rfl
      rw [step, ih]
      simp [newCols]

/-- The retained list of `remove_previous_collections` is the filter by
non-prefixedness. -/
lemma removePrev_eq_filter (pfx : String) (cs : List Collection) :
    (remove_previous_collections pfx cs).1 =
      cs.filter (fun c => !(prefixedBy pfx c)) := by
  unfold remove_previous_collections
  refine List.filter_congr ?_
  intro c _
  cases hn : c.name <;> simp [prefixedBy, hn]

/-- Everything `add_new_collections` appends is prefixed. -/
lemma newCols_prefixed (pfx : String) (groups : Buckets) :
    ∀ c ∈ newCols pfx groups, prefixedBy pfx c = true := by
  intro c hc
  obtain ⟨kv, -, rfl⟩ := List.mem_map.mp hc
  simp [prefixedBy, starts_with_collection_name]

/-- Everything `remove_previous_collections` retains is non-prefixed. -/
lemma removePrev_not_prefixed (pfx : String) (cs : List Collection) :
    ∀ c ∈ (remove_previous_collections pfx cs).1, prefixedBy pfx c = false := by
  rw [removePrev_eq_filter]
  intro c hc
  have := (List.mem_filter.mp hc).2
  simpa using this

/-- The prefixed collections after one pass are exactly the synthesized ones. -/
lemma syncPass_filter_prefixed (pfx : String) (groups : Buckets) (cs : List Collection) :
    (syncPass pfx groups cs).filter (prefixedBy pfx) = newCols pfx groups := by
  unfold syncPass
  rw [addNew_eq_append, List.filter_append]
  have h1 : ((remove_previous_collections pfx cs).1).filter (prefixedBy pfx) = [] := by
    rw [List.filter_eq_nil_iff]
    intro c hc
    simp [removePrev_not_prefixed pfx cs c hc]
  have h2 : (newCols pfx groups).filter (prefixedBy pfx) = newCols pfx groups :=
    List.filter_eq_self.mpr (newCols_prefixed pfx groups)
  rw [h1, h2, List.nil_append]

/-- The non-prefixed collections after one pass are exactly the original
non-prefixed ones, in order. -/
lemma syncPass_filter_not_prefixed (pfx : String) (groups : Buckets) (cs : List Collection) :
    (syncPass pfx groups cs).filter (fun c => !(prefixedBy pfx c)) =
      cs.filter (fun c => !(prefixedBy pfx c)) := by
  unfold syncPass
  rw [addNew_eq_append, List.filter_append]
  have h1 : ((remove_previous_collections pfx cs).1).filter (fun c => !(prefixedBy pfx c)) =
      (remove_previous_collections pfx cs).1 := by
    refine List.filter_eq_self.mpr ?_
    intro c hc
    simp [removePrev_not_prefixed pfx cs c hc]
  have h2 : (newCols pfx groups).filter (fun c => !(prefixedBy pfx c)) = [] := by
    rw [List.filter_eq_nil_iff]
    intro c hc
    simp [newCols_prefixed pfx groups c hc]
  rw [h1, h2, List.append_nil, removePrev_eq_filter]

/-! ### Claim theorems for the Collection Synchronizer -/

/-- Claim C3: `remove_previous_collections` retains exactly those
collections whose name is absent or does not start with the prefix,
removes all others, preserves the relative order of the retained
collections (the retained list is a sublist of the original), and reports
a removed count equal to the original length minus the retained length. -/
theorem removePrevious_spec (pfx : String) (cs : List Collection) :
    (∀ c : Collection,
      c ∈ (remove_previous_collections pfx cs).1 ↔
        c ∈ cs ∧ (c.name = none ∨ ∃ n, c.name = some n ∧ starts_with pfx n = false)) ∧
    List.Sublist (remove_previous_collections pfx cs).1 cs ∧
    (remove_previous_collections pfx cs).2 =
      cs.length - ((remove_previous_collections pfx cs).1).length := by
  refine ⟨?_, ?_, rfl⟩
  · intro c
    unfold remove_previous_collections
    rw [List.mem_filter]
    exact and_congr_right fun _ => keepCond_iff pfx c
  · unfold remove_previous_collections
    exact List.filter_sublist cs

/-- Claim C10: with the empty prefix, `remove_previous_collections`
removes every collection that has a name (every string starts with the
empty string) and retains exactly the collections whose name is absent. -/
theorem removePrevious_empty_prefix_spec (cs : List Collection) :
    (remove_previous_collections "" cs).1 = cs.filter (fun c => c.name.isNone) ∧
    ∀ c ∈ (remove_previous_collections "" cs).1, c.name = none := by
  have hfil : (remove_previous_collections "" cs).1 =
      cs.filter (fun c => c.name.isNone) := by
    unfold remove_previous_collections
    refine List.filter_congr ?_
    intro c _
    cases hn : c.name <;> simp [starts_with_empty]
  refine ⟨hfil, ?_⟩
  rw [hfil]
  intro c hc
  have := (List.mem_filter.mp hc).2
  simpa [Option.isNone_iff_eq_none] using this

/-- Claim C7: for every bucket mapping, `add_new_collections` appends
exactly one new collection per `(bucketKey, hashes)` pair, named
`"{prefix}{bucketKey}% Aim / {100 - bucketKey}% Tapping"` and carrying
exactly the bucket's hash sequence, and appends nothing else. -/
theorem addNew_spec (pfx : String) (groups : Buckets) (cs : List Collection) :
    add_new_collections pfx groups cs =
      cs ++ groups.map (fun kv =>
        { name := some (pfx ++ toString kv.1 ++ "% Aim / " ++
            toString ((100 : ℤ) - kv.1) ++ "% Tapping"),
          beatmap_hashes := kv.2 : Collection }) := by
  rw [addNew_eq_append]
  rfl

/-- Claim C4: after one synchronization pass, the prefixed collections are
exactly the ones the pass produced (so no stale prefixed collection
survives), every produced collection is prefixed, and the non-prefixed
collections (name absent or lacking the prefix) are exactly the original
non-prefixed ones, unchanged and in their original relative order. -/
theorem syncPass_invariant (pfx : String) (groups : Buckets) (cs : List Collection) :
    (syncPass pfx groups cs).filter (prefixedBy pfx) = newCols pfx groups ∧
    (∀ c ∈ newCols pfx groups, prefixedBy pfx c = true) ∧
    (syncPass pfx groups cs).filter (fun c => !(prefixedBy pfx c)) =
      cs.filter (fun c => !(prefixedBy pfx c)) :=
  ⟨syncPass_filter_prefixed pfx groups cs, newCols_prefixed pfx groups,
    syncPass_filter_not_prefixed pfx groups cs⟩

/-- Claim C8: running the synchronization pass twice with the same bucket
mapping and prefix leaves the prefixed collections identical (same names,
same hash sequences) to those after the first run. -/
theorem syncPass_idempotent_on_prefixed (pfx : String) (groups : Buckets)
    (cs : List Collection) :
    (syncPass pfx groups (syncPass pfx groups cs)).filter (prefixedBy pfx) =
      (syncPass pfx groups cs).filter (prefixedBy pfx) := by
  rw [syncPass_filter_prefixed, syncPass_filter_prefixed]

/-! ### Sample inputs used by witnesses and counterexamples -/

/-- The default command line arguments of `main.rs`. -/
def sampleArgs : Args :=
  { osu_path := ".", collection_pfx := "% ", ratio_precision := 10, min_star_rating := 4 }

/-- A Standard-mode record with both path components present and a single
no-mod star rating. -/
def sampleMap (h folder : String) (sr : ℚ) : Beatmap :=
  { hash := some h, folder_name := some folder, file_name := some (h ++ ".osu"),
    mode := Mode.Standard, std_ratings := [(0, sr)] }

/-- A record whose `folder_name` is absent (the `.unwrap()` of line 96
panics on it). -/
def noFolderMap : Beatmap :=
  { hash := some "h", folder_name := none, file_name := some "x.osu",
    mode := Mode.Standard, std_ratings := [(0, 5)] }

/-- An oracle in which every map file fails to parse. -/
def nullPerf : PerfSource := fun _ => none

/-- An oracle in which every map parses to aim value 0 and speed value 0. -/
def zeroPerf : PerfSource := fun _ => some (PerformanceAttributes.Osu 0 0)

/-- An oracle in which every map parses to aim value 1 and speed value 1. -/
def halfPerf : PerfSource := fun _ => some (PerformanceAttributes.Osu 1 1)

/-! ### Claim theorems for the Classifier filter -/

/-- The `unwrap_or` comparison of lines 76–77, characterized: with the
default being the threshold itself, an absent rating passes. -/
lemma le_getD_iff (a : ℚ) (o : Option ℚ) :
    (a ≤ o.getD a) ↔ ∀ s, o = some s → a ≤ s := by
  cases o <;> simp

/-- Claim C6: classification considers exactly the records whose mode is
Standard and whose no-mod star rating, absent entries passing by default,
is at least `min_star_rating`; in the concrete scenario with Standard maps
at star ratings 3.9, 4.0 and 5.0 and threshold 4.0, exactly the 4.0 and
5.0 maps survive the filter. -/
theorem filter_considers_spec :
    (∀ (args : Args) (listing : List Beatmap) (m : Beatmap),
      m ∈ filteredMaps args listing ↔
        m ∈ listing ∧ m.mode = Mode.Standard ∧
          ∀ s : ℚ, noModStars m.std_ratings = some s → args.min_star_rating ≤ s) ∧
    filteredMaps sampleArgs
        [sampleMap "a" "fa" (39/10), sampleMap "b" "fb" 4, sampleMap "c" "fc" 5] =
      [sampleMap "b" "fb" 4, sampleMap "c" "fc" 5] := by
  constructor
  · intro args listing m
    rw [filteredMaps, List.mem_filter]
    refine and_congr_right fun _ => ?_
    rw [keepsMap, Bool.and_eq_true, decide_eq_true_eq, decide_eq_true_eq]
    exact and_congr_right fun _ => le_getD_iff _ _
  · norm_num [filteredMaps, keepsMap, noModStars, sampleArgs, sampleMap]

/-! ### Claim theorems for the bucket-key formula -/

/-- Claim C5, counterexample: at precision `p = 7/2` and ratio `r = 69/10`
the integer-truncated key of lines 113–114 is 3, which is neither a
multiple of `p` nor within `p` of `r` from below (`69/10 ≥ 3 + 7/2`), so
the claimed property fails for the truncated key. -/
theorem bucket_key_counterexample :
    ¬((∃ k : ℤ, ((bucket_key (69/10) (7/2) : ℤ) : ℚ) = k * (7/2)) ∧
      ((bucket_key (69/10) (7/2) : ℤ) : ℚ) ≤ 69/10 ∧
      (69/10 : ℚ) < ((bucket_key (69/10) (7/2) : ℤ) : ℚ) + 7/2) := by
  have h1 : ⌊(69/10 : ℚ) / (7/2)⌋ = 1 := by
    rw [Int.floor_eq_iff] <;> norm_num
  have h2 : ⌊(1 : ℚ) * (7/2)⌋ = 3 := by
    rw [Int.floor_eq_iff] <;> norm_num
  have hk : bucket_key (69/10) (7/2) = 3 := by
    rw [bucket_key, bucket_key_real, h1, ratTrunc, if_pos (by norm_num)]
    exact_mod_cast h2
  rintro ⟨-, -, hlt⟩
  rw [hk] at hlt
  norm_num at hlt

/-- Claim C5, amended: for precision `p > 0` and ratio `r` in [0,100], the
real-valued key `⌊r/p⌋*p` (the expression of line 113 before the `as i32`
cast) is a multiple of `p` and satisfies `key ≤ r < key + p`; after the
integer truncation only the lower bound `key ≤ r` survives in general. -/
theorem bucket_key_real_spec (p r : ℚ) (hp : 0 < p) (h0 : 0 ≤ r) (h100 : r ≤ 100) :
    (∃ k : ℤ, bucket_key_real r p = (k : ℚ) * p) ∧
    bucket_key_real r p ≤ r ∧ r < bucket_key_real r p + p ∧
    ((bucket_key r p : ℤ) : ℚ) ≤ r := by
  have hfl : ((⌊r / p⌋ : ℤ) : ℚ) ≤ r / p := Int.floor_le _
  have hlt : r / p < ⌊r / p⌋ + 1 := Int.lt_floor_add_one _
  have hb1 : bucket_key_real r p ≤ r := by
    rw [bucket_key_real]
    exact (le_div_iff hp).mp hfl
  have hb2 : r < bucket_key_real r p + p := by
    rw [bucket_key_real]
    have h := (div_lt_iff hp).mp hlt
    rw [add_mul, one_mul] at h
    exact h
  have hkr0 : 0 ≤ bucket_key_real r p := by
    rw [bucket_key_real]
    have h0' : (0 : ℚ) ≤ r / p := div_nonneg h0 hp.le
    have hfl0 : (0 : ℤ) ≤ ⌊r / p⌋ := Int.floor_nonneg.mpr h0'
    exact mul_nonneg (by exact_mod_cast hfl0) hp.le
  refine ⟨⟨⌊r / p⌋, rfl⟩, hb1, hb2, ?_⟩
  rw [bucket_key, ratTrunc, if_pos hkr0]
  exact le_trans (Int.floor_le _) hb1

/-- Witness for the amended Claim C5 at `p = 10`, `r = 57`: the key is a
multiple of 10 with `key ≤ 57 < key + 10`. -/
theorem bucket_key_real_spec_witness :
    (∃ k : ℤ, bucket_key_real 57 10 = (k : ℚ) * 10) ∧
    bucket_key_real 57 10 ≤ 57 ∧ (57 : ℚ) < bucket_key_real 57 10 + 10 ∧
    ((bucket_key 57 10 : ℤ) : ℚ) ≤ 57 :=
  bucket_key_real_spec 10 57 (by decide) (by decide) (by decide)

/-! ### Helper lemmas about the classifier fold -/

/-- A record whose path components are both present never panics: every
other outcome (parse error, non-Osu attributes, any ratio) yields `some`. -/
lemma processRecord_isSome (args : Args) (perf : PerfSource) (hm : Buckets) (m : Beatmap)
    (h1 : m.folder_name.isSome) (h2 : m.file_name.isSome) :
    (processRecord args perf hm m).isSome := by
  obtain ⟨f, hf⟩ := Option.isSome_iff_exists.mp h1
  obtain ⟨n, hn⟩ := Option.isSome_iff_exists.mp h2
  cases hperf : perf (mapPath args.osu_path f n) with
  | none => simp [processRecord, hf, hn, hperf]
  | some attrs => cases attrs <;> simp [processRecord, hf, hn, hperf]

/-- The fold completes whenever every record it visits has both path
components. -/
lemma runFold_isSome (args : Args) (perf : PerfSource) :
    ∀ l : List Beatmap,
      (∀ m ∈ l, m.folder_name.isSome ∧ m.file_name.isSome) →
      ∀ hm : Buckets, (runFold args perf hm l).isSome := by
  intro l
  induction l with
  | nil => intro _ hm; simp [runFold]
  | cons m t ih =>
      intro h hm
      have hmem := h m (List.mem_cons_self m t)
      have hsome := processRecord_isSome args perf hm m hmem.1 hmem.2
      obtain ⟨hm', hp⟩ := Option.isSome_iff_exists.mp hsome
      have : runFold args perf hm (m :: t) = runFold args perf hm' t := by
        simp [runFold, hp]
      rw [this]
      exact ih (fun x hx => h x (List.mem_cons_of_mem m hx)) hm'

/-- The degenerate-ratio key: with `pp_aim = pp_speed = 0` the code
computes `0.0 / 0.0 = NaN`, and Rust's saturating `as i32` cast maps `NaN`
to 0; the embedding's `(0 : ℚ) / 0 = 0` reaches the same bucket key 0. -/
lemma zero_aspect_key (p : ℚ) : rounded_aim_aspect 0 p = 0 := by
  rw [rounded_aim_aspect, bucket_key, bucket_key_real]
  norm_num [ratTrunc]

/-! ### Claim theorems for the classifier failure semantics -/

/-- Claim C1, counterexample: a single filtered record whose `folder_name`
is absent makes the whole classification abort (the `.unwrap()` of line 96
panics), instead of being skipped. -/
theorem classifier_abort_counterexample :
    group_maps_by sampleArgs nullPerf [noFolderMap] = none := by
  have hfil : filteredMaps sampleArgs [noFolderMap] = [noFolderMap] := by
    norm_num [filteredMaps, keepsMap, noModStars, sampleArgs, noFolderMap]
  rw [group_maps_by, hfil]
  simp [runFold, processRecord, noFolderMap]

/-- Claim C1, amended: provided every filtered record has both
`folder_name` and `file_name` present, every remaining per-record failure
(unparseable map file, non-Osu attributes, any ratio) is non-fatal and the
classifier completes with the buckets built so far; a record lacking
either path component, however, panics and aborts the batch. -/
theorem classifier_completes_amended (args : Args) (perf : PerfSource)
    (listing : List Beatmap)
    (h : ∀ m ∈ filteredMaps args listing, m.folder_name.isSome ∧ m.file_name.isSome) :
    (group_maps_by args perf listing).isSome :=
  runFold_isSome args perf (filteredMaps args listing) h []

/-- Witness for the amended Claim C1: one well-formed record whose map
file fails to parse is skipped and the classifier still completes. -/
theorem classifier_completes_witness :
    (group_maps_by sampleArgs nullPerf [sampleMap "h" "f" 5]).isSome :=
  classifier_completes_amended sampleArgs nullPerf [sampleMap "h" "f" 5] (by decide)

/-- Claim C2, counterexample: a record whose performance split is
`aim_value = 0`, `speed_value = 0` is not skipped — its hash lands in
bucket 0 (in Rust, `0.0/0.0` is `NaN` and `NaN as i32` is 0). -/
theorem zeroRatio_counterexample :
    group_maps_by sampleArgs zeroPerf [sampleMap "h" "f" 5] = some [(0, [some "h"])] ∧
    ∃ kv ∈ [((0 : ℤ), [some "h"])], some "h" ∈ kv.2 := by
  constructor
  · have hfil : filteredMaps sampleArgs [sampleMap "h" "f" 5] = [sampleMap "h" "f" 5] := by
      norm_num [filteredMaps, keepsMap, noModStars, sampleArgs, sampleMap]
    rw [group_maps_by, hfil]
    simp [runFold, processRecord, sampleMap, sampleArgs, zeroPerf, zero_aspect_key,
      insertBucket]
  · simp

/-- Claim C2, amended: a record reaching the Osu branch with
`aim_value = 0` and `speed_value = 0` is not skipped; its hash is appended
to the bucket with key 0. -/
theorem zeroRatio_bucket_zero (args : Args) (perf : PerfSource) (hm : Buckets)
    (m : Beatmap) (folder fname : String)
    (h1 : m.folder_name = some folder) (h2 : m.file_name = some fname)
    (hperf : perf (mapPath args.osu_path folder fname) =
      some (PerformanceAttributes.Osu 0 0)) :
    processRecord args perf hm m = some (insertBucket hm 0 m.hash) := by
  simp [processRecord, h1, h2, hperf, zero_aspect_key]

/-- Witness for the amended Claim C2 on a concrete record and oracle. -/
theorem zeroRatio_bucket_zero_witness :
    processRecord sampleArgs zeroPerf [] (sampleMap "h" "f" 5) =
      some (insertBucket [] 0 (sampleMap "h" "f" 5).hash) :=
  zeroRatio_bucket_zero sampleArgs zeroPerf [] (sampleMap "h" "f" 5) "f" "h.osu"
    rfl rfl rfl

/-! ### Hash conservation through the classifier -/

lemma bucketHashes_nil : bucketHashes ([] : Buckets) = 0 := rfl

lemma bucketHashes_cons (kv : ℤ × List (Option String)) (rest : Buckets) :
    bucketHashes (kv :: rest) = ↑kv.2 + bucketHashes rest := by
  simp [bucketHashes]

/-- Insertion adds exactly the inserted hash to the stored entries. -/
lemma bucketHashes_insert (hm : Buckets) (key : ℤ) (h : Option String) :
    bucketHashes (insertBucket hm key h) = h ::ₘ bucketHashes hm := by
  induction hm with
  | nil => simp [insertBucket, bucketHashes]
  | cons kv rest ih =>
      obtain ⟨k, hs⟩ := kv
      by_cases hk : k = key
      · simp [insertBucket, hk, bucketHashes_cons]
        rw [← Multiset.coe_add, Multiset.coe_singleton, ← Multiset.singleton_add]
        abel
      · simp [insertBucket, hk, bucketHashes_cons, ih]

/-- One step of the fold adds the record's hash exactly when the record
contributes, and nothing otherwise. -/
lemma processRecord_hashes (args : Args) (perf : PerfSource) (hm : Buckets)
    (m : Beatmap) (hm' : Buckets) (hp : processRecord args perf hm m = some hm') :
    bucketHashes hm' =
      if contributes args perf m then m.hash ::ₘ bucketHashes hm else bucketHashes hm := by
  cases hf : m.folder_name with
  | none => simp [processRecord, hf] at hp
  | some folder =>
    cases hn : m.file_name with
    | none => simp [processRecord, hf, hn] at hp
    | some fname =>
      cases hperf : perf (mapPath args.osu_path folder fname) with
      | none =>
          simp [processRecord, hf, hn, hperf] at hp
          simp [contributes, hf, hn, hperf, ← hp]
      | some attrs =>
          cases attrs with
          | NonOsu =>
              simp [processRecord, hf, hn, hperf] at hp
              simp [contributes, hf, hn, hperf, ← hp]
          | Osu pp_aim pp_speed =>
              simp [processRecord, hf, hn, hperf] at hp
              simp [contributes, hf, hn, hperf, ← hp, bucketHashes_insert]

/-- The fold accumulates exactly the hashes of the contributing records. -/
lemma runFold_hashes (args : Args) (perf : PerfSource) :
    ∀ (l : List Beatmap) (hm b : Buckets),
      runFold args perf hm l = some b →
      bucketHashes b = bucketHashes hm +
        ↑((l.filter (contributes args perf)).map (fun m => m.hash)) := by
  intro l
  induction l with
  | nil =>
      intro hm b hb
      simp [runFold] at hb
      simp [← hb]
  | cons m t ih =>
      intro hm b hb
      cases hp : processRecord args perf hm m with
      | none => simp [runFold, hp] at hb
      | some hm' =>
          simp [runFold, hp] at hb
          have hstep := processRecord_hashes args perf hm m hm' hp
          have hrec := ih hm' b hb
          by_cases hc : contributes args perf m = true
          · rw [if_pos hc] at hstep
            rw [hstep] at hrec
            rw [hrec]
            simp [List.filter_cons, hc]
            rw [← Multiset.cons_coe, ← Multiset.singleton_add, ← Multiset.singleton_add]
            abel
          · have hc' : contributes args perf m = false := by
              simpa using hc
            rw [if_neg (by simp [hc'])] at hstep
            rw [hstep] at hrec
            rw [hrec]
            simp [List.filter_cons, hc']

/-- The total entry count is the cardinality of the stored multiset. -/
lemma hashCount_card (b : Buckets) : hashCount b = Multiset.card (bucketHashes b) := by
  induction b with
  | nil => rfl
  | cons kv rest ih =>
      have hstep : hashCount (kv :: rest) = kv.2.length + hashCount rest := by
        simp [hashCount]
      rw [hstep, ih, bucketHashes_cons]
      simp

/-- Claim C9: every filtered record that parses successfully to Osu-kind
attributes contributes exactly one hash entry to exactly one bucket: the
multiset of all stored entries equals the hashes of the contributing
records (so duplicate hashes are stored in duplicate, with no
deduplication), and the total entry count equals the number of such
records. -/
theorem classifier_hash_conservation (args : Args) (perf : PerfSource)
    (listing : List Beatmap) (b : Buckets)
    (hb : group_maps_by args perf listing = some b) :
    bucketHashes b =
      ↑(((filteredMaps args listing).filter (contributes args perf)).map
        (fun m => m.hash)) ∧
    hashCount b =
      ((filteredMaps args listing).filter (contributes args perf)).length := by
  have h := runFold_hashes args perf (filteredMaps args listing) [] b hb
  rw [bucketHashes_nil, zero_add] at h
  refine ⟨h, ?_⟩
  rw [hashCount_card, h]
  simp

/-- Two records sharing hash "a", both contributing, at aim = speed = 1. -/
def dupListing : List Beatmap := [sampleMap "a" "f1" 5, sampleMap "a" "f2" 5]

/-- The buckets the classifier builds from `dupListing` under `halfPerf`:
one bucket, key 50, hash "a" stored twice. -/
def dupBuckets : Buckets := [(50, [some "a", some "a"])]

/-- Aim aspect 1/2 lands in bucket 50 at the default precision 10
(division form). -/
lemma half_aspect_key_div : rounded_aim_aspect ((1 : ℚ) / (1 + 1)) 10 = 50 := by
  rw [rounded_aim_aspect, bucket_key, bucket_key_real]
  have e1 : (1 : ℚ) / (1 + 1) * 100 / 10 = 5 := by norm_num
  rw [e1]
  have e2 : ⌊(5 : ℚ)⌋ = 5 := by
    rw [Int.floor_eq_iff] <;> norm_num
  rw [e2]
  have e3 : ((5 : ℤ) : ℚ) * 10 = 50 := by norm_num
  rw [e3, ratTrunc, if_pos (by norm_num : (0 : ℚ) ≤ 50)]
  rw [Int.floor_eq_iff] <;> norm_num

/-- Aim aspect 1/2 lands in bucket 50, in the inverse normal form that
`simp` produces for `1 / (1 + 1)`. -/
lemma half_aspect_key : rounded_aim_aspect (((1 : ℚ) + 1)⁻¹) 10 = 50 := by
  have hval : (((1 : ℚ) + 1)⁻¹) = (1 : ℚ) / (1 + 1) := by norm_num
  rw [hval]
  exact half_aspect_key_div

/-- Concrete evaluation of the classifier on `dupListing`. -/
lemma dup_eval : group_maps_by sampleArgs halfPerf dupListing = some dupBuckets := by
  have hfil : filteredMaps sampleArgs dupListing = dupListing := by
    norm_num [filteredMaps, keepsMap, noModStars, sampleArgs, dupListing, sampleMap]
  have hp1 : processRecord sampleArgs halfPerf [] (sampleMap "a" "f1" 5) =
      some [(50, [some "a"])] := by
    simp [processRecord, sampleMap, sampleArgs, halfPerf, half_aspect_key, insertBucket]
  have hp2 : processRecord sampleArgs halfPerf [(50, [some "a"])] (sampleMap "a" "f2" 5) =
      some dupBuckets := by
    simp [processRecord, sampleMap, sampleArgs, halfPerf, half_aspect_key, insertBucket,
      dupBuckets]
  rw [group_maps_by, hfil, dupListing]
  simp [runFold, hp1, hp2]

/-- Witness for Claim C9: the two duplicate-hash records each contribute
one entry; hash "a" is stored twice and the total count is 2. -/
theorem classifier_hash_conservation_witness :
    bucketHashes dupBuckets =
      ↑(((filteredMaps sampleArgs dupListing).filter (contributes sampleArgs halfPerf)).map
        (fun m => m.hash)) ∧
    hashCount dupBuckets =
      ((filteredMaps sampleArgs dupListing).filter (contributes sampleArgs halfPerf)).length :=
  classifier_hash_conservation sampleArgs halfPerf dupListing dupBuckets dup_eval

end Osu
